import Mathlib

/-!
Verification of the destination-derivation logic of container-image-distributor.

Shallow embedding of the pure string-rewriting core of `src/main.go`:
`Repository.GetRegistryPath`, `GenerateDestinationPathFromSourcePathAndConfig`,
`GetDestination`, `ApplyDestinationMapping`, `OverrideTag`, and the pipeline of
`main` that composes them (derivation, global mapping, tag override).

Modelling conventions:
* Go strings are modelled as lists of characters (`Str`).
* A Go `map[string]string` iterated with `range` is modelled as an association
  list in iteration order (Go's map iteration order is unspecified, so theorems
  quantify over that order where it matters).
* `strings.Split`, `strings.Contains`, `strings.Replace(_,_,_,1)`,
  `strings.LastIndex`, `strings.CutPrefix` and `strings.HasPrefix` are
  modelled by the character-list functions below with the same semantics.
* The two sentinel error types become the two constructors of `GenError`;
  a fallible call returns `Except GenError Str`.
-/

/-- Go strings, modelled as lists of characters. -/
abbrev Str := List Char

/-- Model of `type Repository struct` of src/main.go: name, additional names, registry,
suffix and per-repository destination mappings (as an iteration-ordered
association list). -/
structure Repository where
  Name : Str
  AdditionalNames : List Str
  Registry : Str
  Suffix : Str
  DestinationMapping : List (Str × Str)
deriving DecidableEq

/-- Model of `func (r Repository) GetRegistryPath() string`: the registry, joined with
"/" and the suffix when the suffix is non-empty. -/
def Repository.GetRegistryPath (r : Repository) : Str :=
  if r.Suffix.length = 0 then r.Registry
  else r.Registry ++ ['/'] ++ r.Suffix

/-- Model of `type Config struct` of src/main.go: the ordered repository list and the
global destination mappings. -/
structure Config where
  Repositories : List Repository
  DestinationMapping : List (Str × Str)
deriving DecidableEq

/-- The two sentinel errors of src/main.go. -/
inductive GenError where
  | RepositoryNotFoundForDestinationError (destination : Str)
  | RepositoryNotFoundForSourceError (source : Str)
deriving DecidableEq

instance : DecidableEq (Except GenError Str) := fun a b =>
  match a, b with
  | .ok x, .ok y => decidable_of_iff (x = y) (by simp)
  | .error x, .error y => decidable_of_iff (x = y) (by simp)
  | .ok _, .error _ => isFalse (by simp)
  | .error _, .ok _ => isFalse (by simp)

/-- Go `strings.Contains(s, sub)`: scan every position of `s` for `sub` as a
literal substring (true for `sub = ""`). -/
def containsSubstring : Str → Str → Bool
  | [], sub => sub.isPrefixOf []
  | c :: rest, sub => sub.isPrefixOf (c :: rest) || containsSubstring rest sub

/-- Go `strings.Replace(s, old, new, 1)`: replace the first (leftmost)
occurrence of `old` in `s` by `new`; `s` unchanged when `old` does not occur. -/
def replaceFirst : Str → Str → Str → Str
  | [], old, new => if old.isPrefixOf [] then new ++ List.drop old.length [] else []
  | c :: rest, old, new =>
    if old.isPrefixOf (c :: rest) then new ++ (c :: rest).drop old.length
    else c :: replaceFirst rest old new

/-- Go `strings.Split(image, "/")` (single-character separator): the list of
"/"-separated parts of the string. -/
def splitOnSlash : Str → List Str
  | [] => [[]]
  | c :: rest =>
    match splitOnSlash rest with
    | [] => [[c]]
    | part :: parts =>
      if c = '/' then [] :: part :: parts else (c :: part) :: parts

/-- Go `strings.LastIndex(s, string(target))` for a one-character needle:
the index of the last occurrence of `target` in `s`, or `none` (Go's `-1`). -/
def lastIndexChar : Str → Char → Option Nat
  | [], _ => none
  | c :: rest, target =>
    match lastIndexChar rest target with
    | some i => some (i + 1)
    | none => if c = target then some 0 else none

/-- Model of `func ApplyDestinationMapping` (src/main.go lines 186-194): scan the
mapping in iteration order; at the first key occurring as a substring of
`path`, replace that key's first occurrence and return; otherwise return
`path` unchanged. -/
def ApplyDestinationMapping (path : Str) (mapping : List (Str × Str)) : Str :=
  match mapping with
  | [] => path
  | (source, dest) :: rest =>
    if containsSubstring path source then replaceFirst path source dest
    else ApplyDestinationMapping path rest

/-- The `for _, repo := range config.Repositories` loop of `GetDestination`
(src/main.go lines 170-181): the first repository whose name or one of whose
additional names equals the destination selector wins. -/
def GetDestinationLoop (destination imagePathWithoutRegistry : Str) :
    List Repository → Except GenError Str
  | [] => .error (.RepositoryNotFoundForDestinationError destination)
  | repo :: rest =>
    if repo.Name = destination ∨ destination ∈ repo.AdditionalNames then
      .ok (ApplyDestinationMapping
        (repo.GetRegistryPath ++ ['/'] ++ imagePathWithoutRegistry)
        repo.DestinationMapping)
    else GetDestinationLoop destination imagePathWithoutRegistry rest

/-- Model of `func GetDestination` (src/main.go lines 165-184): a selector starting
with "!" short-circuits to the selector with its first "!" removed; otherwise
the repository list is scanned for a name or additional-name match. -/
def GetDestination (destination imagePathWithoutRegistry : Str) (config : Config) :
    Except GenError Str :=
  if ['!'].isPrefixOf destination then
    .ok (replaceFirst destination ['!'] [])
  else GetDestinationLoop destination imagePathWithoutRegistry config.Repositories

/-- The `for _, repo := range config.Repositories` loop of
`GenerateDestinationPathFromSourcePathAndConfig` (src/main.go lines 155-160):
`strings.CutPrefix(image, repo.GetRegistryPath()+"/")` succeeds on the first
repository whose registry path plus "/" is a prefix of the image; the loop
falls through to `RepositoryNotFoundForSourceError`. -/
def GenerateLoop (image destination : Str) (config : Config) :
    List Repository → Except GenError Str
  | [] => .error (.RepositoryNotFoundForSourceError image)
  | repo :: rest =>
    if (repo.GetRegistryPath ++ ['/']).isPrefixOf image then
      GetDestination destination (image.drop (repo.GetRegistryPath ++ ['/']).length) config
    else GenerateLoop image destination config rest

/-- Model of `func GenerateDestinationPathFromSourcePathAndConfig` (src/main.go lines
148-163): an image with fewer than two "/"-separated parts goes straight to
`GetDestination` unmodified; otherwise a registry prefix must be stripped. -/
def GenerateDestinationPathFromSourcePathAndConfig
    (image destination : Str) (config : Config) : Except GenError Str :=
  if (splitOnSlash image).length < 2 then
    GetDestination destination image config
  else GenerateLoop image destination config config.Repositories

/-- Model of `func OverrideTag` (src/main.go lines 196-206): if the image has a ":"
with no "/" after the last one, replace everything after that ":" by the tag;
otherwise append ":" and the tag. -/
def OverrideTag (tag image : Str) : Str :=
  match lastIndexChar image ':' with
  | some i =>
    if containsSubstring (image.drop i) ['/'] then image ++ ':' :: tag
    else image.take i ++ ':' :: tag
  | none => image ++ ':' :: tag

/-- The destination-derivation pipeline of `main` (src/main.go lines 100-112):
derive the destination path, apply the global destination mapping, then apply
the tag override only when an override tag was given (`overrideTag != ""`).
A derivation error aborts the run (`log.Fatal`). -/
def mainPipeline (sourceImage destination overrideTag : Str) (config : Config) :
    Except GenError Str :=
  match GenerateDestinationPathFromSourcePathAndConfig sourceImage destination config with
  | .error e => .error e
  | .ok derived =>
    let globallyMapped := ApplyDestinationMapping derived config.DestinationMapping
    .ok (if overrideTag ≠ [] then OverrideTag overrideTag globallyMapped else globallyMapped)

/-- Explicit state-passing form of the pipeline of `main` (src/main.go lines
100-112): the configuration is the only shared state the derivation steps can
see, and it is threaded through unchanged because every step only reads it. -/
def mainPipelineState (sourceImage destination overrideTag : Str) (config : Config) :
    Except GenError Str × Config :=
  match GenerateDestinationPathFromSourcePathAndConfig sourceImage destination config with
  | .error e => (.error e, config)
  | .ok derived =>
    let globallyMapped := ApplyDestinationMapping derived config.DestinationMapping
    (.ok (if overrideTag ≠ [] then OverrideTag overrideTag globallyMapped else globallyMapped),
      config)

/-! ## Helper lemmas -/

theorem containsSubstring_iff (s sub : Str) :
    containsSubstring s sub = true ↔ sub <:+: s := by
  induction s with
  | nil => simp [containsSubstring, List.isPrefixOf_iff_prefix]
  | cons c rest ih =>
    simp [containsSubstring, List.isPrefixOf_iff_prefix, ih, List.infix_cons_iff]

theorem singleton_infix_iff (a : Char) (l : Str) : [a] <:+: l ↔ a ∈ l := by
  constructor
  · rintro ⟨s, t, rfl⟩
    simp
  · intro h
    obtain ⟨s, t, rfl⟩ := List.append_of_mem h
    exact ⟨s, t, by simp⟩

theorem replaceFirst_of_not_infix (s sub new : Str) (h : ¬ sub <:+: s) :
    replaceFirst s sub new = s := by
  induction s with
  | nil =>
    have hb : sub.isPrefixOf [] = false := by
      rw [Bool.eq_false_iff]
      intro hc
      exact h ((List.isPrefixOf_iff_prefix.1 hc).isInfix)
    simp [replaceFirst, hb]
  | cons c rest ih =>
    have hb : sub.isPrefixOf (c :: rest) = false := by
      rw [Bool.eq_false_iff]
      intro hc
      exact h ((List.isPrefixOf_iff_prefix.1 hc).isInfix)
    have hrest : ¬ sub <:+: rest := fun hi => h (List.infix_cons hi)
    simp [replaceFirst, hb, ih hrest]

theorem replaceFirst_spec (s sub new : Str) (h : sub <:+: s) :
    ∃ pre post, s = pre ++ sub ++ post ∧
      (∀ pre' post', s = pre' ++ sub ++ post' → pre.length ≤ pre'.length) ∧
      replaceFirst s sub new = pre ++ new ++ post := by
  induction s with
  | nil =>
    have hsub : sub = [] := List.infix_nil.1 h
    subst hsub
    exact ⟨[], [], rfl, fun _ _ _ => Nat.zero_le _, by simp [replaceFirst]⟩
  | cons c rest ih =>
    by_cases hp : sub <+: c :: rest
    · obtain ⟨t, ht⟩ := hp
      have hb : sub.isPrefixOf (c :: rest) = true :=
        List.isPrefixOf_iff_prefix.2 ⟨t, ht⟩
      refine ⟨[], t, by simp [ht.symm], fun _ _ _ => Nat.zero_le _, ?_⟩
      simp only [replaceFirst, hb, if_pos]
      rw [← ht, List.drop_left]
      simp
    · have hb : sub.isPrefixOf (c :: rest) = false := by
        rw [Bool.eq_false_iff]
        intro hc
        exact hp (List.isPrefixOf_iff_prefix.1 hc)
      have hrest : sub <:+: rest := by
        rcases h with ⟨pre0, post0, h0⟩
        cases pre0 with
        | nil => exact absurd ⟨post0, by simpa using h0⟩ hp
        | cons x xs =>
          refine ⟨xs, post0, ?_⟩
          have := h0
          simp only [List.cons_append, List.cons.injEq] at this
          exact this.2
      obtain ⟨pre1, post1, hre, hmin, hrep⟩ := ih hrest
      refine ⟨c :: pre1, post1, by simp [hre], ?_, ?_⟩
      · intro pre' post' heq
        cases pre' with
        | nil =>
          exact absurd ⟨post', by simpa using heq.symm⟩ hp
        | cons x xs =>
          simp only [List.cons_append, List.cons.injEq] at heq
          have := hmin xs post' heq.2
          simpa using Nat.succ_le_succ this
      · simp only [replaceFirst, hb, Bool.false_eq_true, if_neg, List.cons_append]
        rw [hrep]
        simp

theorem applyDestinationMapping_eq_find (path : Str) (mapping : List (Str × Str)) :
    ApplyDestinationMapping path mapping =
      match mapping.find? (fun q => containsSubstring path q.1) with
      | some (k, v) => replaceFirst path k v
      | none => path := by
  induction mapping with
  | nil => rfl
  | cons q rest ih =>
    obtain ⟨k, v⟩ := q
    by_cases hc : containsSubstring path k = true
    · simp [ApplyDestinationMapping, List.find?_cons, hc]
    · simp only [Bool.not_eq_true] at hc
      simp [ApplyDestinationMapping, List.find?_cons, hc, ih]

theorem applyDestinationMapping_of_no_match (path : Str) (mapping : List (Str × Str))
    (h : ∀ q ∈ mapping, ¬ q.1 <:+: path) :
    ApplyDestinationMapping path mapping = path := by
  induction mapping with
  | nil => rfl
  | cons q rest ih =>
    obtain ⟨k, v⟩ := q
    have hk : containsSubstring path k = false := by
      rw [Bool.eq_false_iff]
      intro hc
      exact h (k, v) (List.mem_cons_self _ _) ((containsSubstring_iff path k).1 hc)
    simp only [ApplyDestinationMapping, hk, Bool.false_eq_true, if_neg]
    exact ih fun q hq => h q (List.mem_cons_of_mem _ hq)

theorem applyDestinationMapping_of_unique (path : Str) (mapping : List (Str × Str))
    (k v : Str) (hmem : (k, v) ∈ mapping) (hocc : k <:+: path)
    (huniq : ∀ q ∈ mapping, q.1 <:+: path → q = (k, v)) :
    ApplyDestinationMapping path mapping = replaceFirst path k v := by
  induction mapping with
  | nil => exact absurd hmem (List.not_mem_nil _)
  | cons q rest ih =>
    obtain ⟨k0, v0⟩ := q
    by_cases hc : containsSubstring path k0 = true
    · have heq : (k0, v0) = (k, v) :=
        huniq (k0, v0) (List.mem_cons_self _ _) ((containsSubstring_iff path k0).1 hc)
      simp only [Prod.mk.injEq] at heq
      obtain ⟨rfl, rfl⟩ := heq
      simp [ApplyDestinationMapping, hc]
    · have hne : (k0, v0) ≠ (k, v) := by
        rintro ⟨rfl, rfl⟩
        exact hc ((containsSubstring_iff path _).2 hocc)
      have hmem' : (k, v) ∈ rest := by
        rcases List.mem_cons.1 hmem with heq | h
        · exact absurd heq.symm hne
        · exact h
      simp only [Bool.not_eq_true] at hc
      simp only [ApplyDestinationMapping, hc, Bool.false_eq_true, if_neg]
      exact ih hmem' fun q hq hqo => huniq q (List.mem_cons_of_mem _ hq) hqo

theorem getDestinationLoop_error_iff (destination ip : Str) (repos : List Repository)
    (e : GenError) :
    GetDestinationLoop destination ip repos = .error e ↔
      e = .RepositoryNotFoundForDestinationError destination ∧
      ∀ r ∈ repos, ¬ (r.Name = destination ∨ destination ∈ r.AdditionalNames) := by
  induction repos with
  | nil => simp [GetDestinationLoop, eq_comm]
  | cons r rest ih =>
    by_cases hm : r.Name = destination ∨ destination ∈ r.AdditionalNames
    · rw [GetDestinationLoop, if_pos hm]
      constructor
      · intro hc
        exact absurd hc (by simp)
      · rintro ⟨-, hall⟩
        exact absurd hm (hall r (List.mem_cons_self _ _))
    · rw [GetDestinationLoop, if_neg hm, ih]
      constructor
      · rintro ⟨he, hall⟩
        refine ⟨he, ?_⟩
        intro r' hr'
        rcases List.mem_cons.1 hr' with rfl | hmem
        · exact hm
        · exact hall r' hmem
      · rintro ⟨he, hall⟩
        exact ⟨he, fun r' hr' => hall r' (List.mem_cons_of_mem _ hr')⟩

theorem getDestinationLoop_ok_of_match (destination ip : Str) (repos : List Repository)
    (h : ∃ r ∈ repos, r.Name = destination ∨ destination ∈ r.AdditionalNames) :
    ∃ r ∈ repos, (r.Name = destination ∨ destination ∈ r.AdditionalNames) ∧
      GetDestinationLoop destination ip repos =
        .ok (ApplyDestinationMapping (r.GetRegistryPath ++ ['/'] ++ ip)
          r.DestinationMapping) := by
  induction repos with
  | nil => simp at h
  | cons r rest ih =>
    by_cases hm : r.Name = destination ∨ destination ∈ r.AdditionalNames
    · exact ⟨r, List.mem_cons_self _ _, hm, by simp [GetDestinationLoop, hm]⟩
    · obtain ⟨r', hr', hm'⟩ := h
      rcases List.mem_cons.1 hr' with rfl | hmem
      · exact absurd hm' hm
      · obtain ⟨r'', h1, h2, h3⟩ := ih ⟨r', hmem, hm'⟩
        exact ⟨r'', List.mem_cons_of_mem _ h1, h2, by
          simpa [GetDestinationLoop, hm] using h3⟩

theorem getDestination_ne_source_error (destination ip : Str) (config : Config) (s : Str) :
    GetDestination destination ip config ≠ .error (.RepositoryNotFoundForSourceError s) := by
  intro hc
  unfold GetDestination at hc
  by_cases hb : ['!'].isPrefixOf destination = true
  · rw [if_pos hb] at hc
    exact absurd hc (by simp)
  · rw [if_neg hb, getDestinationLoop_error_iff] at hc
    exact absurd hc.1 (by simp)

theorem generateLoop_eq_of_found (image destination : Str) (config : Config)
    (repos : List Repository) (r : Repository)
    (hfind : repos.find? (fun q => (q.GetRegistryPath ++ ['/']).isPrefixOf image) = some r) :
    GenerateLoop image destination config repos =
      GetDestination destination (image.drop (r.GetRegistryPath ++ ['/']).length) config := by
  induction repos with
  | nil => simp [List.find?] at hfind
  | cons r0 rest ih =>
    rw [List.find?_cons] at hfind
    by_cases hp : (r0.GetRegistryPath ++ ['/']).isPrefixOf image = true
    · simp only [hp] at hfind
      obtain rfl : r0 = r := by simpa using hfind
      simp [GenerateLoop, hp]
    · simp only [Bool.not_eq_true] at hp
      simp only [hp] at hfind
      simp only [GenerateLoop, hp, Bool.false_eq_true, if_neg]
      exact ih hfind

theorem generateLoop_source_error_iff (image destination : Str) (config : Config)
    (repos : List Repository) :
    GenerateLoop image destination config repos =
        .error (.RepositoryNotFoundForSourceError image) ↔
      ∀ r ∈ repos, (r.GetRegistryPath ++ ['/']).isPrefixOf image = false := by
  induction repos with
  | nil => simp [GenerateLoop]
  | cons r rest ih =>
    by_cases hp : (r.GetRegistryPath ++ ['/']).isPrefixOf image = true
    · simp only [GenerateLoop, hp, if_pos]
      constructor
      · intro hc
        exact absurd hc (getDestination_ne_source_error _ _ _ _)
      · intro hall
        have := hall r (List.mem_cons_self _ _)
        rw [hp] at this
        exact absurd this (by simp)
    · simp only [Bool.not_eq_true] at hp
      simp [GenerateLoop, hp, ih]

theorem splitOnSlash_ne_nil (s : Str) : splitOnSlash s ≠ [] := by
  cases s with
  | nil => simp [splitOnSlash]
  | cons c rest =>
    simp only [splitOnSlash]
    cases h : splitOnSlash rest with
    | nil => simp
    | cons part parts => by_cases hc : c = '/' <;> simp [hc]

theorem splitOnSlash_length (s : Str) :
    (splitOnSlash s).length = s.count '/' + 1 := by
  induction s with
  | nil => simp [splitOnSlash]
  | cons c rest ih =>
    simp only [splitOnSlash]
    rcases h : splitOnSlash rest with _ | ⟨part, parts⟩
    · exact absurd h (splitOnSlash_ne_nil rest)
    · rw [h] at ih
      by_cases hc : c = '/'
      · subst hc
        simp only [if_pos rfl, List.length_cons, List.count_cons]
        simp at ih ⊢
        omega
      · simp only [hc, if_neg, List.length_cons, List.count_cons]
        simp only [List.length_cons] at ih
        have : (c == '/') = false := by simpa using hc
        simp [this]
        omega

theorem lastIndexChar_eq_none (s : Str) (c : Char) :
    lastIndexChar s c = none ↔ c ∉ s := by
  induction s with
  | nil => simp [lastIndexChar]
  | cons x rest ih =>
    simp only [lastIndexChar]
    cases h : lastIndexChar rest c with
    | some i =>
      have hmem : c ∈ rest := by
        by_contra hc
        rw [← ih] at hc
        rw [h] at hc
        exact absurd hc (by simp)
      simp [List.mem_cons, hmem]
    | none =>
      have hrest : c ∉ rest := ih.1 h
      by_cases hx : x = c
      · simp [hx]
      · have hx' : ¬ c = x := fun hcx => hx hcx.symm
        simp [hx, List.mem_cons, hrest, hx']

theorem lastIndexChar_append_cons (pre post : Str) (c : Char) (hpost : c ∉ post) :
    lastIndexChar (pre ++ c :: post) c = some pre.length := by
  induction pre with
  | nil =>
    simp only [List.nil_append, lastIndexChar]
    rw [(lastIndexChar_eq_none post c).2 hpost]
    simp
  | cons x xs ih =>
    simp only [List.cons_append, lastIndexChar, List.append_eq]
    rw [ih]
    simp

theorem getDestination_bang (destination ip : Str) (config : Config)
    (h : ['!'].isPrefixOf destination = true) :
    GetDestination destination ip config = .ok (destination.drop 1) := by
  obtain ⟨t, ht⟩ := List.isPrefixOf_iff_prefix.1 h
  unfold GetDestination
  rw [if_pos h]
  rw [← ht]
  show Except.ok (replaceFirst ('!' :: t) ['!'] []) = Except.ok (('!' :: t).drop 1)
  simp [replaceFirst]

theorem getDestination_dest_error_iff (destination ip : Str) (config : Config) :
    GetDestination destination ip config =
        .error (.RepositoryNotFoundForDestinationError destination) ↔
      ['!'].isPrefixOf destination = false ∧
        ∀ r ∈ config.Repositories,
          ¬ (r.Name = destination ∨ destination ∈ r.AdditionalNames) := by
  unfold GetDestination
  by_cases hb : ['!'].isPrefixOf destination = true
  · rw [if_pos hb]
    simp [hb]
  · have hb' : ['!'].isPrefixOf destination = false := Bool.eq_false_iff.2 hb
    rw [if_neg hb, getDestinationLoop_error_iff]
    simp [hb']

theorem getDestination_error_eq (destination ip : Str) (config : Config) (e : GenError)
    (hc : GetDestination destination ip config = .error e) :
    e = .RepositoryNotFoundForDestinationError destination := by
  unfold GetDestination at hc
  by_cases hb : ['!'].isPrefixOf destination = true
  · rw [if_pos hb] at hc
    exact absurd hc (by simp)
  · rw [if_neg hb, getDestinationLoop_error_iff] at hc
    exact hc.1

theorem find?_eq_of_earliest {α : Type} (p : α → Bool) (l : List α) :
    ∀ (i : Nat) (a : α), l.get? i = some a → p a = true →
      (∀ j, j < i → ∀ b, l.get? j = some b → p b = false) →
      l.find? p = some a := by
  induction l with
  | nil => intro i a hi _ _; simp at hi
  | cons x xs ih =>
    intro i a hi ha hj
    cases i with
    | zero =>
      obtain rfl : x = a := by simpa using hi
      simp [List.find?_cons, ha]
    | succ i =>
      have hx : p x = false := hj 0 (Nat.succ_pos _) x rfl
      simp only [List.find?_cons, hx]
      exact ih i a (by simpa using hi) ha
        (fun j hji b hb => hj (j + 1) (Nat.succ_lt_succ hji) b (by simpa using hb))

/-! ## Claims -/

/-- C1 counterexample: with no repositories configured and the two-part source
image "a/b", the call fails with `RepositoryNotFoundForSourceError` even though
the destination selector "!x" starts with "!", so the claim that a "!"
selector always succeeds (the config playing no role) is false: the
source-prefix match against the config happens first. -/
theorem C1_counterexample :
    (['!'].isPrefixOf ("!x".toList)) = true ∧
    GenerateDestinationPathFromSourcePathAndConfig ("a/b".toList) ("!x".toList) ⟨[], []⟩ =
      .error (.RepositoryNotFoundForSourceError ("a/b".toList)) :=
  ⟨by decide, by decide⟩

/-- C1 (amended): if the destination selector starts with "!", then
`GenerateDestinationPathFromSourcePathAndConfig` returns the selector with its
leading "!" removed whenever the source-prefix stage passes (the image has
fewer than two "/"-separated parts, or some repository's registry path plus
"/" is a prefix of the image), and `RepositoryNotFoundForSourceError`
otherwise; `RepositoryNotFoundForDestinationError` is never returned. -/
theorem C1_generate_bang_amended (image destination : Str) (config : Config)
    (h : ['!'].isPrefixOf destination = true) :
    (GenerateDestinationPathFromSourcePathAndConfig image destination config =
        .ok (destination.drop 1) ↔
      (splitOnSlash image).length < 2 ∨
        ∃ r ∈ config.Repositories, (r.GetRegistryPath ++ ['/']).isPrefixOf image = true) ∧
    (GenerateDestinationPathFromSourcePathAndConfig image destination config =
        .ok (destination.drop 1) ∨
      GenerateDestinationPathFromSourcePathAndConfig image destination config =
        .error (.RepositoryNotFoundForSourceError image)) := by
  unfold GenerateDestinationPathFromSourcePathAndConfig
  by_cases hlen : (splitOnSlash image).length < 2
  · rw [if_pos hlen, getDestination_bang _ _ _ h]
    exact ⟨⟨fun _ => Or.inl hlen, fun _ => rfl⟩, Or.inl rfl⟩
  · rw [if_neg hlen]
    cases hfind : config.Repositories.find?
        (fun q => (q.GetRegistryPath ++ ['/']).isPrefixOf image) with
    | some r =>
      rw [generateLoop_eq_of_found _ _ _ _ r hfind, getDestination_bang _ _ _ h]
      refine ⟨⟨fun _ => Or.inr ⟨r, List.mem_of_find?_eq_some hfind, ?_⟩, fun _ => rfl⟩,
        Or.inl rfl⟩
      simpa using List.find?_some hfind
    | none =>
      have hall : ∀ r ∈ config.Repositories,
          (r.GetRegistryPath ++ ['/']).isPrefixOf image = false := by
        intro r hr
        exact Bool.eq_false_iff.2 fun hc => List.find?_eq_none.1 hfind r hr hc
      rw [(generateLoop_source_error_iff image destination config _).2 hall]
      refine ⟨⟨fun hc => absurd hc (by simp), ?_⟩, Or.inr rfl⟩
      rintro (hl | ⟨r, hr, hp⟩)
      · exact absurd hl hlen
      · rw [hall r hr] at hp
        exact absurd hp (by simp)

/-- C1 witness: a matching registry prefix "reg/" is stripped and the "!"
selector short-circuits to the literal destination "dest". -/
theorem C1_witness :
    GenerateDestinationPathFromSourcePathAndConfig ("reg/app".toList) ("!dest".toList)
      ⟨[⟨("repo".toList), [], ("reg".toList), [], []⟩], []⟩ = .ok ("dest".toList) := by
  have h := (C1_generate_bang_amended ("reg/app".toList) ("!dest".toList)
    ⟨[⟨("repo".toList), [], ("reg".toList), [], []⟩], []⟩ (by decide)).1.mpr (by decide)
  have h2 : (("!dest".toList)).drop 1 = ("dest".toList) := by decide
  rw [h2] at h
  exact h

/-- C8: for a source image containing no "/", the prefix-matching stage is
skipped entirely (the unmodified image goes straight to `GetDestination`) and
`RepositoryNotFoundForSourceError` can never be returned, whatever the config. -/
theorem C8_no_slash_skips_source_matching (image destination : Str) (config : Config)
    (h : '/' ∉ image) :
    GenerateDestinationPathFromSourcePathAndConfig image destination config =
      GetDestination destination image config ∧
    ∀ s, GenerateDestinationPathFromSourcePathAndConfig image destination config ≠
      .error (.RepositoryNotFoundForSourceError s) := by
  have hcount : image.count '/' = 0 := List.count_eq_zero.2 h
  have hlen : (splitOnSlash image).length < 2 := by
    rw [splitOnSlash_length, hcount]
    omega
  constructor
  · unfold GenerateDestinationPathFromSourcePathAndConfig
    rw [if_pos hlen]
  · intro s
    unfold GenerateDestinationPathFromSourcePathAndConfig
    rw [if_pos hlen]
    exact getDestination_ne_source_error _ _ _ _

/-- C8 witness: the slash-free image "app" bypasses prefix matching even
though no repository's registry path matches it. -/
theorem C8_witness :
    ('/' ∉ ("app".toList)) ∧
    (GenerateDestinationPathFromSourcePathAndConfig ("app".toList) ("!d".toList) ⟨[], []⟩ =
      GetDestination ("!d".toList) ("app".toList) ⟨[], []⟩) :=
  ⟨by decide, (C8_no_slash_skips_source_matching ("app".toList) ("!d".toList) ⟨[], []⟩
    (by decide)).1⟩

/-- C9: when the image has at least two "/"-separated parts, the earliest
repository in the config's list whose registry path plus "/" is a prefix of
the image determines the stripped path; later matching repositories are
ignored. -/
theorem C9_earliest_source_match_wins (image destination : Str) (config : Config)
    (i : Nat) (r : Repository)
    (hlen : ¬ (splitOnSlash image).length < 2)
    (hi : config.Repositories.get? i = some r)
    (hr : (r.GetRegistryPath ++ ['/']).isPrefixOf image = true)
    (hearlier : ∀ j, j < i → ∀ q, config.Repositories.get? j = some q →
      (q.GetRegistryPath ++ ['/']).isPrefixOf image = false) :
    GenerateDestinationPathFromSourcePathAndConfig image destination config =
      GetDestination destination (image.drop (r.GetRegistryPath ++ ['/']).length) config := by
  unfold GenerateDestinationPathFromSourcePathAndConfig
  rw [if_neg hlen]
  exact generateLoop_eq_of_found _ _ _ _ r
    (find?_eq_of_earliest _ _ i r hi hr hearlier)

/-- C9 witness: with two repositories, only the second of which matches the
image "a/img", the second repository's prefix "a/" is the one stripped. -/
theorem C9_witness :
    GenerateDestinationPathFromSourcePathAndConfig ("a/img".toList) ("!d".toList)
        ⟨[⟨("r1".toList), [], ("b".toList), [], []⟩,
          ⟨("r2".toList), [], ("a".toList), [], []⟩], []⟩ =
      GetDestination ("!d".toList) ("img".toList)
        ⟨[⟨("r1".toList), [], ("b".toList), [], []⟩,
          ⟨("r2".toList), [], ("a".toList), [], []⟩], []⟩ := by
  have h := C9_earliest_source_match_wins ("a/img".toList) ("!d".toList)
    ⟨[⟨("r1".toList), [], ("b".toList), [], []⟩,
      ⟨("r2".toList), [], ("a".toList), [], []⟩], []⟩ 1
    ⟨("r2".toList), [], ("a".toList), [], []⟩
    (by decide) (by decide) (by decide)
    (by
      intro j hj q hq
      obtain rfl : j = 0 := by omega
      have hq' : (⟨("r1".toList), [], ("b".toList), [], []⟩ : Repository) = q := by
        simpa using hq
      subst hq'
      decide)
  have h2 : (("a/img".toList)).drop
      ((Repository.GetRegistryPath ⟨("r2".toList), [], ("a".toList), [], []⟩ ++ ['/']).length) =
      ("img".toList) := by decide
  rw [h2] at h
  exact h

/-- C2 counterexample: no repository's registry path plus "/" is a prefix of
the slash-free image "a", yet the call succeeds (returning "reg/a") because
the prefix-matching stage is skipped for images with fewer than two
"/"-separated parts — so "SourceError exactly when no prefix matches" is
false as stated. -/
theorem C2_counterexample :
    (∀ r ∈ ([⟨("dst".toList), [], ("reg".toList), [], []⟩] : List Repository),
      (r.GetRegistryPath ++ ['/']).isPrefixOf ("a".toList) = false) ∧
    GenerateDestinationPathFromSourcePathAndConfig ("a".toList) ("dst".toList)
      ⟨[⟨("dst".toList), [], ("reg".toList), [], []⟩], []⟩ = .ok ("reg/a".toList) :=
  ⟨by decide, by decide⟩

/-- C2 (amended): `GenerateDestinationPathFromSourcePathAndConfig` errors in
exactly two cases: `RepositoryNotFoundForSourceError` when the image has at
least two "/"-separated parts and no repository's registry path plus "/" is a
prefix of it, and `RepositoryNotFoundForDestinationError` when the prefix
stage passes (fewer than two parts, or some prefix matches) and the selector,
not starting with "!", equals no repository's name or additional name; no
other error value is ever returned. -/
theorem C2_error_characterization_amended (image destination : Str) (config : Config) :
    (GenerateDestinationPathFromSourcePathAndConfig image destination config =
        .error (.RepositoryNotFoundForSourceError image) ↔
      2 ≤ (splitOnSlash image).length ∧
        ∀ r ∈ config.Repositories,
          (r.GetRegistryPath ++ ['/']).isPrefixOf image = false) ∧
    (GenerateDestinationPathFromSourcePathAndConfig image destination config =
        .error (.RepositoryNotFoundForDestinationError destination) ↔
      ((splitOnSlash image).length < 2 ∨
        ∃ r ∈ config.Repositories,
          (r.GetRegistryPath ++ ['/']).isPrefixOf image = true) ∧
      ['!'].isPrefixOf destination = false ∧
      ∀ r ∈ config.Repositories,
        ¬ (r.Name = destination ∨ destination ∈ r.AdditionalNames)) ∧
    (∀ e, GenerateDestinationPathFromSourcePathAndConfig image destination config =
        .error e →
      e = .RepositoryNotFoundForSourceError image ∨
      e = .RepositoryNotFoundForDestinationError destination) := by
  unfold GenerateDestinationPathFromSourcePathAndConfig
  by_cases hlen : (splitOnSlash image).length < 2
  · rw [if_pos hlen]
    refine ⟨?_, ?_, ?_⟩
    · constructor
      · intro hc
        exact absurd hc (getDestination_ne_source_error _ _ _ _)
      · rintro ⟨h2, -⟩
        omega
    · rw [getDestination_dest_error_iff]
      constructor
      · rintro ⟨hb, hall⟩
        exact ⟨Or.inl hlen, hb, hall⟩
      · rintro ⟨-, hb, hall⟩
        exact ⟨hb, hall⟩
    · intro e hc
      exact Or.inr (getDestination_error_eq _ _ _ _ hc)
  · rw [if_neg hlen]
    cases hfind : config.Repositories.find?
        (fun q => (q.GetRegistryPath ++ ['/']).isPrefixOf image) with
    | some r =>
      rw [generateLoop_eq_of_found _ _ _ _ r hfind]
      have hmem := List.mem_of_find?_eq_some hfind
      have hp : (r.GetRegistryPath ++ ['/']).isPrefixOf image = true := by
        simpa using List.find?_some hfind
      refine ⟨?_, ?_, ?_⟩
      · constructor
        · intro hc
          exact absurd hc (getDestination_ne_source_error _ _ _ _)
        · rintro ⟨-, hall⟩
          rw [hall r hmem] at hp
          exact absurd hp (by simp)
      · rw [getDestination_dest_error_iff]
        constructor
        · rintro ⟨hb, hall⟩
          exact ⟨Or.inr ⟨r, hmem, hp⟩, hb, hall⟩
        · rintro ⟨-, hb, hall⟩
          exact ⟨hb, hall⟩
      · intro e hc
        exact Or.inr (getDestination_error_eq _ _ _ _ hc)
    | none =>
      have hall : ∀ r ∈ config.Repositories,
          (r.GetRegistryPath ++ ['/']).isPrefixOf image = false := by
        intro r hr
        exact Bool.eq_false_iff.2 fun hc => List.find?_eq_none.1 hfind r hr hc
      rw [(generateLoop_source_error_iff image destination config _).2 hall]
      refine ⟨?_, ?_, ?_⟩
      · constructor
        · intro _
          exact ⟨by omega, hall⟩
        · intro _
          rfl
      · constructor
        · intro hc
          exact absurd hc (by simp)
        · rintro ⟨hcase, -, -⟩
          rcases hcase with hl | ⟨r, hr, hp⟩
          · exact absurd hl hlen
          · rw [hall r hr] at hp
            exact absurd hp (by simp)
      · intro e hc
        left
        have := hc.symm
        simpa [eq_comm] using this

/-- C2 witness: an image with a "/" and an empty repository list triggers
`RepositoryNotFoundForSourceError`. -/
theorem C2_witness :
    GenerateDestinationPathFromSourcePathAndConfig ("x/y".toList) ("d".toList) ⟨[], []⟩ =
      .error (.RepositoryNotFoundForSourceError ("x/y".toList)) :=
  (C2_error_characterization_amended ("x/y".toList) ("d".toList) ⟨[], []⟩).1.mpr
    ⟨by decide, by decide⟩

/-- C3: `ApplyDestinationMapping` applies at most one substitution: if no key
of the mapping occurs in the path the path is returned unchanged; otherwise
the first key (in iteration order) that occurs as a literal substring wins,
and only its leftmost occurrence in the path is replaced — no further
substitutions are applied. -/
theorem C3_apply_destination_mapping_spec (path : Str) (mapping : List (Str × Str)) :
    ((∀ q ∈ mapping, ¬ q.1 <:+: path) → ApplyDestinationMapping path mapping = path) ∧
    (∀ q ∈ mapping, q.1 <:+: path →
      ∃ kv, mapping.find? (fun q' => containsSubstring path q'.1) = some kv) ∧
    (∀ k v, mapping.find? (fun q' => containsSubstring path q'.1) = some (k, v) →
      ∃ pre post, path = pre ++ k ++ post ∧
        (∀ pre' post', path = pre' ++ k ++ post' → pre.length ≤ pre'.length) ∧
        ApplyDestinationMapping path mapping = pre ++ v ++ post) := by
  refine ⟨applyDestinationMapping_of_no_match path mapping, ?_, ?_⟩
  · intro q hq hocc
    have : (mapping.find? (fun q' => containsSubstring path q'.1)).isSome :=
      List.find?_isSome.2 ⟨q, hq, (containsSubstring_iff path q.1).2 hocc⟩
    exact Option.isSome_iff_exists.1 this
  · intro k v hfind
    have hocc : k <:+: path :=
      (containsSubstring_iff path k).1 (by simpa using List.find?_some hfind)
    obtain ⟨pre, post, hsplit, hmin, hrep⟩ := replaceFirst_spec path k v hocc
    refine ⟨pre, post, hsplit, hmin, ?_⟩
    rw [applyDestinationMapping_eq_find, hfind]
    exact hrep

/-- C3 witness: in "abcb" with mapping [("c","Z"),("b","Y")], the key "c"
(first in iteration order that occurs) is substituted at its occurrence, and
in particular the result is "abZb". -/
theorem C3_witness :
    ∃ pre post, ("abcb".toList) = pre ++ ("c".toList) ++ post ∧
      (∀ pre' post', ("abcb".toList) = pre' ++ ("c".toList) ++ post' →
        pre.length ≤ pre'.length) ∧
      ApplyDestinationMapping ("abcb".toList)
        [(("c".toList), ("Z".toList)), (("b".toList), ("Y".toList))] =
        pre ++ ("Z".toList) ++ post :=
  (C3_apply_destination_mapping_spec ("abcb".toList)
    [(("c".toList), ("Z".toList)), (("b".toList), ("Y".toList))]).2.2
    ("c".toList) ("Z".toList) (by decide)

/-- C4: with a selector not starting with "!" that equals some repository's
name or additional name, the result is that repository's registry (joined
with "/" and its suffix when the suffix is non-empty) followed by "/" and the
stripped image path, with that repository's own destination mapping applied. -/
theorem C4_destination_by_name (image destination stripped : Str) (config : Config)
    (hbang : ['!'].isPrefixOf destination = false)
    (hstrip : ((splitOnSlash image).length < 2 ∧ stripped = image) ∨
      (∃ r, config.Repositories.find?
          (fun q => (q.GetRegistryPath ++ ['/']).isPrefixOf image) = some r ∧
        stripped = image.drop (r.GetRegistryPath ++ ['/']).length))
    (hmatch : ∃ r ∈ config.Repositories,
      r.Name = destination ∨ destination ∈ r.AdditionalNames) :
    ∃ r ∈ config.Repositories,
      (r.Name = destination ∨ destination ∈ r.AdditionalNames) ∧
      GenerateDestinationPathFromSourcePathAndConfig image destination config =
        .ok (ApplyDestinationMapping
          ((if r.Suffix.length = 0 then r.Registry
            else r.Registry ++ ['/'] ++ r.Suffix) ++ ['/'] ++ stripped)
          r.DestinationMapping) := by
  have hgen : GenerateDestinationPathFromSourcePathAndConfig image destination config =
      GetDestination destination stripped config := by
    rcases hstrip with ⟨hlen, rfl⟩ | ⟨r, hfind, rfl⟩
    · unfold GenerateDestinationPathFromSourcePathAndConfig
      rw [if_pos hlen]
    · have hp : (r.GetRegistryPath ++ ['/']).isPrefixOf image = true := by
        simpa using List.find?_some hfind
      have hmem : '/' ∈ image := by
        obtain ⟨t, ht⟩ := List.isPrefixOf_iff_prefix.1 hp
        rw [← ht]
        simp
      have hlen2 : ¬ (splitOnSlash image).length < 2 := by
        rw [splitOnSlash_length]
        have : 0 < image.count '/' := List.count_pos_iff.2 hmem
        omega
      unfold GenerateDestinationPathFromSourcePathAndConfig
      rw [if_neg hlen2]
      exact generateLoop_eq_of_found _ _ _ _ r hfind
  rw [hgen]
  unfold GetDestination
  rw [if_neg (by simp [hbang])]
  obtain ⟨r, hmem, hm, heq⟩ := getDestinationLoop_ok_of_match destination stripped _ hmatch
  exact ⟨r, hmem, hm, heq⟩

/-- C4 witness: image "reg/app" stripped by repository "dst" (registry "reg",
empty suffix), selector "dst": the result is the mapped "reg/app". -/
theorem C4_witness :
    ∃ r ∈ ([⟨("dst".toList), [], ("reg".toList), [], []⟩] : List Repository),
      (r.Name = ("dst".toList) ∨ ("dst".toList) ∈ r.AdditionalNames) ∧
      GenerateDestinationPathFromSourcePathAndConfig ("reg/app".toList) ("dst".toList)
        ⟨[⟨("dst".toList), [], ("reg".toList), [], []⟩], []⟩ =
        .ok (ApplyDestinationMapping
          ((if r.Suffix.length = 0 then r.Registry
            else r.Registry ++ ['/'] ++ r.Suffix) ++ ['/'] ++ ("app".toList))
          r.DestinationMapping) :=
  C4_destination_by_name ("reg/app".toList) ("dst".toList) ("app".toList)
    ⟨[⟨("dst".toList), [], ("reg".toList), [], []⟩], []⟩
    (by decide)
    (Or.inr ⟨⟨("dst".toList), [], ("reg".toList), [], []⟩, by decide, by decide⟩)
    ⟨⟨("dst".toList), [], ("reg".toList), [], []⟩, by decide, by decide⟩

/-- C5: `OverrideTag` replaces everything after the last ":" when no "/"
occurs after it; when the image has no ":" at all, or a "/" occurs after the
last ":" (a registry port), it appends ":" and the tag instead. -/
theorem C5_override_tag_spec (tag image : Str) :
    (':' ∉ image → OverrideTag tag image = image ++ ':' :: tag) ∧
    (∀ pre post, image = pre ++ ':' :: post → ':' ∉ post → '/' ∉ post →
      OverrideTag tag image = pre ++ ':' :: tag) ∧
    (∀ pre post, image = pre ++ ':' :: post → ':' ∉ post → '/' ∈ post →
      OverrideTag tag image = image ++ ':' :: tag) := by
  refine ⟨?_, ?_, ?_⟩
  · intro h
    unfold OverrideTag
    rw [(lastIndexChar_eq_none image ':').2 h]
  · intro pre post heq hcolon hslash
    unfold OverrideTag
    subst heq
    rw [lastIndexChar_append_cons pre post ':' hcolon]
    have hdrop : (pre ++ ':' :: post).drop pre.length = ':' :: post :=
      List.drop_left pre (':' :: post)
    have hcontains : containsSubstring (':' :: post) ['/'] = false := by
      rw [Bool.eq_false_iff]
      intro hc
      have hmem := (singleton_infix_iff '/' (':' :: post)).1
        ((containsSubstring_iff _ _).1 hc)
      rcases List.mem_cons.1 hmem with h1 | h1
      · exact absurd h1 (by decide)
      · exact hslash h1
    simp [hdrop, hcontains, List.take_left]
  · intro pre post heq hcolon hslash
    unfold OverrideTag
    subst heq
    rw [lastIndexChar_append_cons pre post ':' hcolon]
    have hdrop : (pre ++ ':' :: post).drop pre.length = ':' :: post :=
      List.drop_left pre (':' :: post)
    have hcontains : containsSubstring (':' :: post) ['/'] = true :=
      (containsSubstring_iff _ _).2
        ((singleton_infix_iff '/' (':' :: post)).2 (List.mem_cons_of_mem _ hslash))
    simp [hdrop, hcontains]

/-- C5 witness: in "r:5000/app:v1" the last ":" is followed by no "/", so the
tag "v2" replaces "v1" and the port colon is untouched. -/
theorem C5_witness :
    OverrideTag ("v2".toList) ("r:5000/app:v1".toList) = ("r:5000/app".toList) ++ ':' :: ("v2".toList) :=
  (C5_override_tag_spec ("v2".toList) ("r:5000/app:v1".toList)).2.1
    ("r:5000/app".toList) ("v1".toList) (by decide) (by decide) (by decide)

/-- C6: when the derivation succeeds, the pipeline of `main` applies the
global destination mapping to the derived path first, and the tag override
(only when an override tag was given) is applied last, to the
globally-substituted result — the global substitution never sees the
overridden tag. -/
theorem C6_pipeline_order (sourceImage destination overrideTag : Str) (config : Config)
    (derived : Str)
    (hd : GenerateDestinationPathFromSourcePathAndConfig sourceImage destination config =
      .ok derived) :
    (overrideTag = [] → mainPipeline sourceImage destination overrideTag config =
      .ok (ApplyDestinationMapping derived config.DestinationMapping)) ∧
    (overrideTag ≠ [] → mainPipeline sourceImage destination overrideTag config =
      .ok (OverrideTag overrideTag
        (ApplyDestinationMapping derived config.DestinationMapping))) := by
  unfold mainPipeline
  rw [hd]
  constructor
  · intro h
    simp [h]
  · intro h
    simp [h]

/-- C6 witness: the override tag "t" is applied after the global mapping on
the derived destination "dest". -/
theorem C6_witness :
    mainPipeline ("reg/app".toList) ("!dest".toList) ("t".toList)
        ⟨[⟨("repo".toList), [], ("reg".toList), [], []⟩], [(("de".toList), ("DE".toList))]⟩ =
      .ok (OverrideTag ("t".toList)
        (ApplyDestinationMapping ("dest".toList) [(("de".toList), ("DE".toList))])) :=
  (C6_pipeline_order ("reg/app".toList) ("!dest".toList) ("t".toList)
    ⟨[⟨("repo".toList), [], ("reg".toList), [], []⟩], [(("de".toList), ("DE".toList))]⟩
    ("dest".toList) (by decide)).2 (by decide)

/-- C7: the derivation pipeline never mutates the configuration: in the
explicit state-passing form of `main`'s derivation steps the threaded config
(its repository list, every repository's fields, and both destination-mapping
maps) comes back unchanged, and the computed result agrees with the pure
pipeline. -/
theorem C7_config_not_mutated (sourceImage destination overrideTag : Str)
    (config : Config) :
    (mainPipelineState sourceImage destination overrideTag config).2 = config ∧
    (mainPipelineState sourceImage destination overrideTag config).1 =
      mainPipeline sourceImage destination overrideTag config := by
  unfold mainPipelineState mainPipeline
  cases GenerateDestinationPathFromSourcePathAndConfig sourceImage destination config with
  | error e => exact ⟨rfl, rfl⟩
  | ok derived => exact ⟨rfl, rfl⟩

/-- C10 counterexample: on path "ab", the mappings [("a","x"),("b","y")] and
[("b","y"),("a","x")] are permutations of one another (the same Go map in two
iteration orders), yet `ApplyDestinationMapping` gives "xb" in one order and
"ay" in the other — the result does depend on map iteration order when two
distinct keys both occur. -/
theorem C10_counterexample :
    ([(("a".toList), ("x".toList)), (("b".toList), ("y".toList))]).Perm
        [(("b".toList), ("y".toList)), (("a".toList), ("x".toList))] ∧
    ApplyDestinationMapping ("ab".toList)
        [(("a".toList), ("x".toList)), (("b".toList), ("y".toList))] ≠
      ApplyDestinationMapping ("ab".toList)
        [(("b".toList), ("y".toList)), (("a".toList), ("x".toList))] :=
  ⟨by decide, by decide⟩

/-- C10 (amended): the pipeline is deterministic once the map iteration order
is fixed (it is a pure function of its inputs), and `ApplyDestinationMapping`
is independent of the iteration order whenever at most one entry of the map
has a key occurring in the path; when two distinct keys both occur, the
result may depend on the iteration order. -/
theorem C10_amended_order_independence (path : Str) (m1 m2 : List (Str × Str))
    (hperm : m1.Perm m2)
    (hone : ∀ q ∈ m1, ∀ q' ∈ m1, q.1 <:+: path → q'.1 <:+: path → q = q') :
    ApplyDestinationMapping path m1 = ApplyDestinationMapping path m2 := by
  by_cases hex : ∃ q ∈ m1, q.1 <:+: path
  · obtain ⟨⟨k, v⟩, hmem, hocc⟩ := hex
    have huniq1 : ∀ q ∈ m1, q.1 <:+: path → q = (k, v) :=
      fun q hq hqo => hone q hq (k, v) hmem hqo hocc
    have huniq2 : ∀ q ∈ m2, q.1 <:+: path → q = (k, v) :=
      fun q hq hqo => huniq1 q (hperm.mem_iff.2 hq) hqo
    rw [applyDestinationMapping_of_unique path m1 k v hmem hocc huniq1,
      applyDestinationMapping_of_unique path m2 k v (hperm.mem_iff.1 hmem) hocc huniq2]
  · push_neg at hex
    rw [applyDestinationMapping_of_no_match path m1 hex,
      applyDestinationMapping_of_no_match path m2
        (fun q hq => hex q (hperm.mem_iff.2 hq))]

/-- C10 witness: when only the key "a" of the two-entry map occurs in the
path "ca", both iteration orders substitute the same entry. -/
theorem C10_witness :
    ApplyDestinationMapping ("ca".toList)
        [(("a".toList), ("x".toList)), (("b".toList), ("y".toList))] =
      ApplyDestinationMapping ("ca".toList)
        [(("b".toList), ("y".toList)), (("a".toList), ("x".toList))] :=
  C10_amended_order_independence ("ca".toList)
    [(("a".toList), ("x".toList)), (("b".toList), ("y".toList))]
    [(("b".toList), ("y".toList)), (("a".toList), ("x".toList))]
    (by decide) (by decide)

